import Mathlib

/-!
Verification of the connection-to-worker stream supervisor of the face
recognition / RAG platform (Node.js backend, `server.js`).

The embedding models, faithfully to the JavaScript source:
* the stream framer used in the stdout handlers of both worker kinds
  (`buffer += data; lines = buffer.split('\n'); buffer = lines.pop()`),
* the per-line relay of the recognition stdout handler (trim filter,
  JSON parse, forward-or-log),
* the inbound client-message handlers of both WebSocket branches,
* the spawn-failure (`catch`) paths of `startChatProcess` and
  `startRecognitionProcess`,
* the supervisor state machine: the `recognitionProcesses` / `chatProcesses`
  maps, connection acceptance (`clientId = Date.now().toString()`,
  `isChatWs = req.url === '/chat'`), the ws `close` handlers, the worker
  `close` handlers (spontaneous exit), and the chat restart timer
  (`setTimeout(() => startChatProcess(clientId, ws), 1000)`, one time unit
  of backoff).
-/

namespace FaceRag

/-! ## Definitions: stream framer

`splitNl` mirrors JavaScript `s.split('\n')` on a list of characters: the
result is never empty, the segments are the maximal newline-free runs, and
the last segment is the (possibly empty) text after the final newline. -/

def splitNl : List Char → List (List Char)
  | [] => [[]]
  | c :: cs =>
    if c = '\n' then [] :: splitNl cs
    else
      match splitNl cs with
      | [] => [[c]]
      | p :: ps => (c :: p) :: ps

/-- `feed buf chunk` is one firing of the stdout `data` handler:
append the chunk to the pending buffer, split on the newline terminator,
emit every complete segment in order, and keep the final (incomplete)
segment as the new pending buffer (`buffer = lines.pop()`). -/
def feed (buf chunk : List Char) : List (List Char) × List Char :=
  let parts := splitNl (buf ++ chunk)
  (parts.dropLast, parts.getLastD [])

/-- Feeding a sequence of chunks, starting from a pending buffer:
the emitted lines of all chunks are concatenated in arrival order. -/
def processChunks : List Char → List (List Char) → List (List Char) × List Char
  | buf, [] => ([], buf)
  | buf, ch :: rest =>
    let fed := feed buf ch
    let out := processChunks fed.2 rest
    (fed.1 ++ out.1, out.2)

/-- The serialized byte stream of a message sequence: each message followed
by the newline terminator (the worker writes one JSON object per line). -/
def encodeMsgs (M : List (List Char)) : List Char :=
  (M.map fun m => m ++ ['\n']).flatten

/-- Prepend a partial segment onto the head of a split. -/
def consHead (p : List Char) : List (List Char) → List (List Char)
  | [] => [p]
  | x :: xs => (p ++ x) :: xs

/-! ## Definitions: per-line relay of the recognition stdout handler -/

/-- JavaScript `line.trim()`: strip leading and trailing whitespace. -/
def jsTrim (l : List Char) : List Char :=
  ((l.dropWhile Char.isWhitespace).reverse.dropWhile Char.isWhitespace).reverse

/-- Observable outcome of relaying framed worker-output lines:
the messages forwarded to the client and the number of decode errors
logged internally. -/
structure RelayOut (J : Type) where
  sent : List J
  errors : Nat
deriving DecidableEq

/-- One iteration of the recognition branch's `lines.forEach`:
skip the line if its trimmed form is empty; otherwise `JSON.parse` it
(modelled by the ambient `parse` function, since `JSON.parse` is a library
call external to the repository) and forward the result to the client when
the socket is open, or log one decode error on parse failure.  The error
path sends nothing to the client and does not abort processing. -/
def processLine {J : Type} (parse : List Char → Option J) (wsOpen : Bool)
    (line : List Char) : RelayOut J :=
  if jsTrim line = [] then ⟨[], 0⟩
  else
    match parse line with
    | some r => ⟨if wsOpen then [r] else [], 0⟩
    | none => ⟨[], 1⟩

/-- The whole `lines.forEach(...)` loop over a framed line sequence. -/
def processLines {J : Type} (parse : List Char → Option J) (wsOpen : Bool) :
    List (List Char) → RelayOut J
  | [] => ⟨[], 0⟩
  | l :: rest =>
    let h := processLine parse wsOpen l
    let t := processLines parse wsOpen rest
    ⟨h.sent ++ t.sent, h.errors + t.errors⟩

/-- A concrete parse function used to instantiate witnesses: it accepts the
two tokens `g1` and `g2` and rejects everything else. -/
def demoParse : List Char → Option Nat := fun l =>
  if l = ['g', '1'] then some 1 else if l = ['g', '2'] then some 2 else none

/-! ## Definitions: client-visible messages -/

/-- A message sent to the client over the WebSocket, reduced to its
envelope `type` and its `message` text. -/
structure OutMsg where
  mtype : String
  text : String
deriving DecidableEq

/-- Sent by the chat worker's `close` handler before scheduling a restart. -/
def restartNotice : OutMsg :=
  ⟨"system", "Chat process terminated, restarting..."⟩

/-- Sent by the `catch` of `startChatProcess` on spawn failure. -/
def chatUnavailableNotice : OutMsg :=
  ⟨"system", "Unable to start chat service. Please try again later."⟩

/-- Sent by the `catch` of `startRecognitionProcess` on spawn failure. -/
def recUnavailableNotice : OutMsg :=
  ⟨"system", "Failed to start recognition service. Please try again."⟩

/-- Sent by the chat `ws.on('message')` catch on a malformed client message. -/
def invalidFormatNotice : OutMsg :=
  ⟨"system", "Invalid message format. Please try again."⟩

/-! ## Definitions: inbound client-message handlers -/

/-- A structurally valid (JSON-parseable) client message, classified by its
`type` field: a chat query, a recognition frame, or any other shape. -/
inductive ClientMsg where
  | query (q : String)
  | frame (img : String)
  | other (tag : String)
deriving DecidableEq

/-- `JSON.stringify({ query, timestamp }) + '\n'`: the newline-terminated
wire form written to the chat worker's stdin. -/
def encodeQueryWire (q : String) (ts : Nat) : List Char :=
  ("\x7b\"query\":\"" ++ q ++ "\",\"timestamp\":" ++ Nat.repr ts ++ "\x7d" ++ "\n").toList

/-- `JSON.stringify({ image, timestamp }) + '\n'`: the newline-terminated
wire form written to the recognition worker's stdin. -/
def encodeFrameWire (img : String) (ts : Nat) : List Char :=
  ("\x7b\"image\":\"" ++ img ++ "\",\"timestamp\":" ++ Nat.repr ts ++ "\x7d" ++ "\n").toList

/-- Observable outcome of handling inbound client messages: the writes made
to the worker's stdin, the number of errors logged, the messages sent back
to the client, and whether the handler closed the connection. -/
structure InboundOut where
  toWorker : List (List Char)
  logs : Nat
  toClient : List OutMsg
  closedConn : Bool
deriving DecidableEq

/-- The chat branch's `ws.on('message')` handler.  `none` models a message
on which `JSON.parse` throws (the `catch` path).  `procAlive` models the
truthiness of the `chatProcess` variable. -/
def handleChatMessage (procAlive wsOpen : Bool) (now : Nat)
    (m : Option ClientMsg) : InboundOut :=
  match m with
  | some (ClientMsg.query q) =>
    if procAlive then ⟨[encodeQueryWire q now], 0, [], false⟩ else ⟨[], 0, [], false⟩
  | some _ => ⟨[], 0, [], false⟩
  | none => ⟨[], 1, if wsOpen then [invalidFormatNotice] else [], false⟩

/-- The recognition branch's `ws.on('message')` handler (the socket state
is not consulted anywhere in this handler: its catch only logs). -/
def handleRecMessage (procAlive _wsOpen : Bool) (now : Nat)
    (m : Option ClientMsg) : InboundOut :=
  match m with
  | some (ClientMsg.frame img) =>
    if procAlive then ⟨[encodeFrameWire img now], 0, [], false⟩ else ⟨[], 0, [], false⟩
  | some _ => ⟨[], 0, [], false⟩
  | none => ⟨[], 1, [], false⟩

/-- Handling a sequence of inbound chat messages, each tagged with its
arrival time, in arrival order. -/
def runChatInbound (procAlive wsOpen : Bool) :
    List (Nat × Option ClientMsg) → InboundOut
  | [] => ⟨[], 0, [], false⟩
  | it :: rest =>
    let h := handleChatMessage procAlive wsOpen it.1 it.2
    let t := runChatInbound procAlive wsOpen rest
    ⟨h.toWorker ++ t.toWorker, h.logs + t.logs, h.toClient ++ t.toClient,
      h.closedConn || t.closedConn⟩

/-- Handling a sequence of inbound recognition messages in arrival order. -/
def runRecInbound (procAlive wsOpen : Bool) :
    List (Nat × Option ClientMsg) → InboundOut
  | [] => ⟨[], 0, [], false⟩
  | it :: rest =>
    let h := handleRecMessage procAlive wsOpen it.1 it.2
    let t := runRecInbound procAlive wsOpen rest
    ⟨h.toWorker ++ t.toWorker, h.logs + t.logs, h.toClient ++ t.toClient,
      h.closedConn || t.closedConn⟩

/-! ## Definitions: registry maps

The JavaScript `Map` operations used on `recognitionProcesses` and
`chatProcesses`, on an association list from client id to process id. -/

def mlookup : List (String × Nat) → String → Option Nat
  | [], _ => none
  | e :: rest, k => if e.1 = k then some e.2 else mlookup rest k

def mset : List (String × Nat) → String → Nat → List (String × Nat)
  | [], k, v => [(k, v)]
  | e :: rest, k, v => if e.1 = k then (k, v) :: rest else e :: mset rest k v

def mdelete : List (String × Nat) → String → List (String × Nat)
  | [], _ => []
  | e :: rest, k => if e.1 = k then rest else e :: mdelete rest k

def mhas (m : List (String × Nat)) (k : String) : Bool :=
  (mlookup m k).isSome

/-! ## Definitions: spawn and spawn failure (`startChatProcess` /
`startRecognitionProcess` viewed as one call) -/

/-- Outcome of one `startChatProcess` / `startRecognitionProcess` call:
the registry map afterwards, the messages sent to the client, the returned
process handle (`null` on failure), and the number of errors logged. -/
structure StartResult where
  procs : List (String × Nat)
  toClient : List OutMsg
  ret : Option Nat
  logs : Nat
deriving DecidableEq

/-- `startChatProcess`: on successful spawn the process is registered under
the client id and returned; if `spawn` throws (the `catch` path, carrying
the exception's diagnostic text), the error is logged, a fixed generic
notice is sent when the socket is open, nothing is registered, and `null`
is returned. -/
def startChatProcessH (spawnResult : Except String Nat) (wsOpen : Bool)
    (cid : String) (procs : List (String × Nat)) : StartResult :=
  match spawnResult with
  | Except.ok pid => ⟨mset procs cid pid, [], some pid, 0⟩
  | Except.error _ => ⟨procs, if wsOpen then [chatUnavailableNotice] else [], none, 1⟩

/-- `startRecognitionProcess`: same structure as the chat variant, with the
recognition branch's generic notice. -/
def startRecognitionProcessH (spawnResult : Except String Nat) (wsOpen : Bool)
    (cid : String) (procs : List (String × Nat)) : StartResult :=
  match spawnResult with
  | Except.ok pid => ⟨mset procs cid pid, [], some pid, 0⟩
  | Except.error _ => ⟨procs, if wsOpen then [recUnavailableNotice] else [], none, 1⟩

/-! ## Definitions: supervisor state machine

Events are timestamped; spawns inside the trace model always succeed (the
spawn-failure path is modelled separately above).  A worker `close`
handler of a killed process only re-deletes an already deleted key and
re-checks an already closed socket, so only spontaneous exits appear as
events. -/

inductive Kind where
  | chat
  | recog
deriving DecidableEq

/-- One accepted WebSocket connection: its object identity `wsIdx`, the
`clientId` assigned at acceptance, its classified kind, and whether the
socket is still open. -/
structure Conn where
  wsIdx : Nat
  clientId : String
  kind : Kind
  isOpen : Bool
deriving DecidableEq

/-- A pending `setTimeout(() => startChatProcess(clientId, ws), 1000)`:
scheduled at `scheduledAt`, eligible to fire from `fireAt = scheduledAt + 1`
(one time unit of backoff). -/
structure RestartTimer where
  clientId : String
  wsIdx : Nat
  scheduledAt : Nat
  fireAt : Nat
deriving DecidableEq

/-- Supervisor state: connections, the two registry maps, the ghost lists
of every pid ever spawned / killed / spontaneously exited, the pending
restart timers, the messages sent to clients, the next fresh pid, and the
current time. -/
structure SupState where
  conns : List Conn
  chatProcs : List (String × Nat)
  recProcs : List (String × Nat)
  spawned : List Nat
  killed : List Nat
  exited : List Nat
  timers : List RestartTimer
  msgs : List (String × OutMsg)
  nextPid : Nat
  now : Nat
deriving DecidableEq

/-- `const clientId = Date.now().toString()`. -/
def clientIdOf (t : Nat) : String := Nat.repr t

/-- `const isChatWs = req.url === '/chat'`. -/
def isChatWs (url : String) : Bool := url = "/chat"

/-- Session-kind classification: `/chat` is a chat session, every other
target falls through to the recognition branch. -/
def classifyKind (url : String) : Kind :=
  if isChatWs url then Kind.chat else Kind.recog

/-- The success path of `startChatProcess(clientId, ws)` inside the trace
model: spawn a fresh worker and register it under `cid`, unconditionally
(the call never re-checks the socket before spawning or registering). -/
def startChatProcessM (cid : String) (s : SupState) : SupState :=
  { s with chatProcs := mset s.chatProcs cid s.nextPid,
           spawned := s.spawned ++ [s.nextPid],
           nextPid := s.nextPid + 1 }

/-- `wss.on('connection')`: assign `clientId` from the current time,
classify the kind from the request target, and start the worker. -/
def handleConnect (url : String) (s : SupState) : SupState :=
  let cid := clientIdOf s.now
  match classifyKind url with
  | Kind.chat =>
    let s1 := { s with conns := s.conns ++
      [({ wsIdx := s.conns.length, clientId := cid, kind := Kind.chat,
          isOpen := true } : Conn)] }
    startChatProcessM cid s1
  | Kind.recog =>
    let s1 := { s with conns := s.conns ++
      [({ wsIdx := s.conns.length, clientId := cid, kind := Kind.recog,
          isOpen := true } : Conn)] }
    { s1 with recProcs := mset s1.recProcs cid s1.nextPid,
              spawned := s1.spawned ++ [s1.nextPid],
              nextPid := s1.nextPid + 1 }

def getConn (s : SupState) (i : Nat) : Option Conn :=
  s.conns.get? i

def closeConnAt (conns : List Conn) (i : Nat) : List Conn :=
  conns.map fun c => if c.wsIdx = i then { c with isOpen := false } else c

/-- `ws.on('close')` of either branch: mark the socket closed; if the
registry still holds an entry for this `clientId`, kill that process and
delete the entry. -/
def handleWsClose (i : Nat) (s : SupState) : SupState :=
  match getConn s i with
  | none => s
  | some c =>
    let s1 := { s with conns := closeConnAt s.conns i }
    match c.kind with
    | Kind.chat =>
      match mlookup s1.chatProcs c.clientId with
      | some pid =>
        { s1 with killed := s1.killed ++ [pid],
                  chatProcs := mdelete s1.chatProcs c.clientId }
      | none => s1
    | Kind.recog =>
      match mlookup s1.recProcs c.clientId with
      | some pid =>
        { s1 with killed := s1.killed ++ [pid],
                  recProcs := mdelete s1.recProcs c.clientId }
      | none => s1

/-- The worker `close` handler on a spontaneous exit of the process
currently registered for connection `i`'s client id.  Chat: delete the
entry, and if the socket is still open, send the restart notice and
schedule the restart timer one unit ahead.  Recognition: delete the entry
and do nothing else. -/
def handleProcExit (i : Nat) (s : SupState) : SupState :=
  match getConn s i with
  | none => s
  | some c =>
    match c.kind with
    | Kind.chat =>
      match mlookup s.chatProcs c.clientId with
      | none => s
      | some pid =>
        let s1 := { s with exited := s.exited ++ [pid],
                           chatProcs := mdelete s.chatProcs c.clientId }
        if c.isOpen then
          { s1 with msgs := s1.msgs ++ [(c.clientId, restartNotice)],
                    timers := s1.timers ++
                      [({ clientId := c.clientId, wsIdx := c.wsIdx,
                          scheduledAt := s.now, fireAt := s.now + 1 } : RestartTimer)] }
        else s1
    | Kind.recog =>
      match mlookup s.recProcs c.clientId with
      | none => s
      | some pid =>
        { s with exited := s.exited ++ [pid],
                 recProcs := mdelete s.recProcs c.clientId }

/-- The `setTimeout` callback: re-run `startChatProcess` for the same
client id.  Faithfully to the source, it does not re-check the socket
state before spawning and registering. -/
def handleTimerFire (j : Nat) (s : SupState) : SupState :=
  match s.timers.get? j with
  | none => s
  | some tm =>
    let s1 := { s with timers := s.timers.eraseIdx j }
    startChatProcessM tm.clientId s1

/-- Timestamped events of the supervisor. -/
inductive Ev where
  | connect (url : String) (t : Nat)
  | wsClose (i : Nat) (t : Nat)
  | procExit (i : Nat) (t : Nat)
  | timerFire (j : Nat) (t : Nat)
deriving DecidableEq

/-- Event validity: time is monotone; a socket can close only once; a
spontaneous exit needs a registered worker; a timer fires only at or after
its `fireAt` instant. -/
def valid (s : SupState) : Ev → Bool
  | Ev.connect _ t => decide (s.now ≤ t)
  | Ev.wsClose i t =>
    decide (s.now ≤ t) &&
      (match getConn s i with
       | some c => c.isOpen
       | none => false)
  | Ev.procExit i t =>
    decide (s.now ≤ t) &&
      (match getConn s i with
       | some c =>
         match c.kind with
         | Kind.chat => mhas s.chatProcs c.clientId
         | Kind.recog => mhas s.recProcs c.clientId
       | none => false)
  | Ev.timerFire j t =>
    decide (s.now ≤ t) &&
      (match s.timers.get? j with
       | some tm => decide (tm.fireAt ≤ t)
       | none => false)

def step (s : SupState) (e : Ev) : SupState :=
  if valid s e then
    match e with
    | Ev.connect url t => handleConnect url { s with now := t }
    | Ev.wsClose i t => handleWsClose i { s with now := t }
    | Ev.procExit i t => handleProcExit i { s with now := t }
    | Ev.timerFire j t => handleTimerFire j { s with now := t }
  else s

def run (s : SupState) (es : List Ev) : SupState :=
  es.foldl step s

def allValid : SupState → List Ev → Bool
  | _, [] => true
  | s, e :: rest => valid s e && allValid (step s e) rest

def initState : SupState :=
  ⟨[], [], [], [], [], [], [], [], 0, 0⟩

def allConnsClosed (s : SupState) : Bool :=
  s.conns.all fun c => !c.isOpen

def registryEmpty (s : SupState) : Bool :=
  s.chatProcs.isEmpty && s.recProcs.isEmpty

/-- A chat session whose worker exits spontaneously, whose client then
disconnects during the restart backoff, and whose restart timer then
fires. -/
def leakTrace : List Ev :=
  [Ev.connect "/chat" 5, Ev.procExit 0 6, Ev.wsClose 0 6, Ev.timerFire 0 7]

/-- Two connections accepted within the same millisecond. -/
def collideTrace : List Ev :=
  [Ev.connect "/chat" 7, Ev.connect "/chat" 7]

/-- A chat session accepted at time 5 (used to instantiate witnesses). -/
def cadenceState : SupState :=
  run initState [Ev.connect "/chat" 5]

/-- The connection record of that session. -/
def cadenceConn : Conn :=
  { wsIdx := 0, clientId := clientIdOf 5, kind := Kind.chat, isOpen := true }

/-- The restart timer scheduled when that session's worker exits at time 6. -/
def cadenceTimer : RestartTimer :=
  { clientId := clientIdOf 5, wsIdx := 0, scheduledAt := 6, fireAt := 7 }

/-- The state after the spontaneous exit at time 6. -/
def cadenceExited : SupState :=
  step cadenceState (Ev.procExit 0 6)

/-- A recognition session accepted at time 5 (used to instantiate witnesses). -/
def recogState : SupState :=
  run initState [Ev.connect "/ws" 5]

/-- The connection record of that recognition session. -/
def recogConn : Conn :=
  { wsIdx := 0, clientId := clientIdOf 5, kind := Kind.recog, isOpen := true }

/-! ## Theorems: stream framer -/

theorem splitNl_ne_nil (l : List Char) : splitNl l ≠ [] := by
  match l with
  | [] => simp [splitNl]
  | c :: cs =>
    by_cases h : c = '\n'
    · simp [splitNl, h]
    · have := splitNl_ne_nil cs
      cases hcs : splitNl cs with
      | nil => exact absurd hcs this
      | cons p ps => simp [splitNl, h, hcs]

theorem getLastD_irrel {α : Type} (l : List α) (h : l ≠ []) (d e : α) :
    l.getLastD d = l.getLastD e := by
  cases l with
  | nil => exact absurd rfl h
  | cons a l => rfl

theorem splitNl_cons (c : Char) (cs : List Char) :
    splitNl (c :: cs) =
      if c = '\n' then [] :: splitNl cs else consHead [c] (splitNl cs) := by
  cases hcs : splitNl cs with
  | nil => exact absurd hcs (splitNl_ne_nil cs)
  | cons p ps => by_cases h : c = '\n' <;> simp [splitNl, h, hcs, consHead]

theorem consHead_consHead (p q : List Char) (r : List (List Char)) :
    consHead p (consHead q r) = consHead (p ++ q) r := by
  cases r <;> simp [consHead]

theorem splitNl_append (a b : List Char) :
    splitNl (a ++ b) =
      (splitNl a).dropLast ++ consHead ((splitNl a).getLastD []) (splitNl b) := by
  induction a with
  | nil =>
    cases hb : splitNl b with
    | nil => exact absurd hb (splitNl_ne_nil b)
    | cons x xs => simp [splitNl, consHead, hb]
  | cons c cs ih =>
    rw [List.cons_append, splitNl_cons, ih, splitNl_cons]
    by_cases h : c = '\n'
    · cases hcs : splitNl cs with
      | nil => exact absurd hcs (splitNl_ne_nil cs)
      | cons p ps =>
        simp only [if_pos h, hcs, List.dropLast_cons₂, List.getLastD_cons,
          List.cons_append]
    · cases hcs : splitNl cs with
      | nil => exact absurd hcs (splitNl_ne_nil cs)
      | cons p ps =>
        simp only [if_neg h, hcs]
        cases ps with
        | nil =>
          simp only [List.dropLast_single, List.getLastD_cons, List.getLastD_nil,
            List.nil_append, consHead_consHead]
          simp [consHead]
        | cons p2 ps2 =>
          simp only [List.dropLast_cons₂, List.getLastD_cons]
          cases hb : splitNl b with
          | nil => exact absurd hb (splitNl_ne_nil b)
          | cons x xs =>
            simp only [consHead, List.cons_append, List.singleton_append]
            simp [List.dropLast_cons₂, List.getLastD_cons, List.getLast?_cons,
              List.getLastD_eq_getLast?]

theorem getLastD_append_ne_nil {α : Type} (X Y : List α) (d : α) (h : Y ≠ []) :
    (X ++ Y).getLastD d = Y.getLastD d := by
  obtain ⟨v, hv⟩ := Option.isSome_iff_exists.mp (List.getLast?_isSome.mpr h)
  simp [List.getLastD_eq_getLast?, List.getLast?_append_of_ne_nil, h, hv]

theorem splitNl_no_newline (l : List Char) (h : '\n' ∉ l) : splitNl l = [l] := by
  induction l with
  | nil => rfl
  | cons c cs ih =>
    have hc : c ≠ '\n' := fun hc => h (hc ▸ List.mem_cons_self c cs)
    have hcs : '\n' ∉ cs := fun hm => h (List.mem_cons_of_mem c hm)
    rw [splitNl_cons, if_neg hc, ih hcs]
    simp [consHead]

theorem no_newline_getLastD_splitNl (a : List Char) :
    '\n' ∉ (splitNl a).getLastD [] := by
  induction a with
  | nil => simp [splitNl]
  | cons c cs ih =>
    rw [splitNl_cons]
    by_cases h : c = '\n'
    · rw [if_pos h]
      cases hcs : splitNl cs with
      | nil => exact absurd hcs (splitNl_ne_nil cs)
      | cons p ps =>
        rw [hcs] at ih
        simpa [List.getLastD_cons] using ih
    · rw [if_neg h]
      cases hcs : splitNl cs with
      | nil => exact absurd hcs (splitNl_ne_nil cs)
      | cons p ps =>
        rw [hcs] at ih
        cases ps with
        | nil =>
          simp only [consHead, List.singleton_append, List.getLastD_cons,
            List.getLastD_nil] at ih ⊢
          intro hm
          rcases List.mem_cons.mp hm with hm | hm
          · exact h hm.symm
          · exact ih hm
        | cons p2 ps2 =>
          simpa [consHead, List.getLastD_cons] using ih

theorem feed_append (buf c1 c2 : List Char) :
    feed buf (c1 ++ c2) =
      ((feed buf c1).1 ++ (feed (feed buf c1).2 c2).1, (feed (feed buf c1).2 c2).2) := by
  have hb1 : '\n' ∉ (splitNl (buf ++ c1)).getLastD [] := no_newline_getLastD_splitNl _
  have key : splitNl (buf ++ (c1 ++ c2)) =
      (splitNl (buf ++ c1)).dropLast ++
        splitNl ((splitNl (buf ++ c1)).getLastD [] ++ c2) := by
    rw [← List.append_assoc, splitNl_append (buf ++ c1) c2,
      splitNl_append ((splitNl (buf ++ c1)).getLastD []) c2,
      splitNl_no_newline _ hb1]
    simp [consHead]
  have hne : splitNl ((splitNl (buf ++ c1)).getLastD [] ++ c2) ≠ [] :=
    splitNl_ne_nil _
  refine Prod.ext ?_ ?_
  · show (splitNl (buf ++ (c1 ++ c2))).dropLast =
      (splitNl (buf ++ c1)).dropLast ++
        (splitNl ((splitNl (buf ++ c1)).getLastD [] ++ c2)).dropLast
    rw [key, List.dropLast_append_of_ne_nil _ hne]
  · show (splitNl (buf ++ (c1 ++ c2))).getLastD [] =
      (splitNl ((splitNl (buf ++ c1)).getLastD [] ++ c2)).getLastD []
    rw [key, getLastD_append_ne_nil _ _ _ hne]

theorem processChunks_eq_feed_flatten (chunks : List (List Char)) (buf : List Char)
    (h : '\n' ∉ buf) : processChunks buf chunks = feed buf chunks.flatten := by
  induction chunks generalizing buf with
  | nil =>
    simp only [processChunks, List.flatten_nil, feed, List.append_nil,
      splitNl_no_newline buf h]
    rfl
  | cons ch rest ih =>
    have hbuf' : '\n' ∉ (feed buf ch).2 := no_newline_getLastD_splitNl _
    rw [List.flatten_cons, feed_append]
    simp only [processChunks, ih _ hbuf']

theorem splitNl_encode_cons (m rest : List Char) (hm : '\n' ∉ m) :
    splitNl (m ++ '\n' :: rest) = m :: splitNl rest := by
  rw [splitNl_append m ('\n' :: rest), splitNl_no_newline m hm, splitNl_cons,
    if_pos rfl]
  simp [consHead]

theorem splitNl_encode (M : List (List Char)) (p : List Char)
    (hM : ∀ m ∈ M, '\n' ∉ m) (hp : '\n' ∉ p) :
    splitNl (encodeMsgs M ++ p) = M ++ [p] := by
  induction M with
  | nil =>
    simp only [encodeMsgs, List.map_nil, List.flatten_nil, List.nil_append]
    exact splitNl_no_newline p hp
  | cons m M ih =>
    have hm : '\n' ∉ m := hM m (List.mem_cons_self m M)
    have hM' : ∀ x ∈ M, '\n' ∉ x := fun x hx => hM x (List.mem_cons_of_mem m hx)
    have hstream : encodeMsgs (m :: M) ++ p = m ++ '\n' :: (encodeMsgs M ++ p) := by
      simp [encodeMsgs]
    rw [hstream, splitNl_encode_cons m (encodeMsgs M ++ p) hm, ih hM']
    simp

/-- C2 — Chunk invariance of the Stream Framer: for every sequence of
newline-terminated messages `M` (messages contain no terminator) and every way
of splitting the serialized byte stream of `M` (followed by a possibly empty
trailing incomplete segment `p`) into chunks, feeding the chunks through the
buffer-append/split/keep-tail loop emits exactly the lines of `M`, in order,
independent of the chunk boundaries, and retains the final incomplete segment
`p` as the pending buffer. -/
theorem framer_chunk_invariance (M chunks : List (List Char)) (p : List Char)
    (hM : ∀ m ∈ M, '\n' ∉ m) (hp : '\n' ∉ p)
    (hs : chunks.flatten = encodeMsgs M ++ p) :
    processChunks [] chunks = (M, p) := by
  rw [processChunks_eq_feed_flatten chunks [] (by simp), hs, feed]
  have : splitNl ([] ++ (encodeMsgs M ++ p)) = M ++ [p] := by
    rw [List.nil_append]
    exact splitNl_encode M p hM hp
  rw [this]
  simp

/-- Witness for C2 at a concrete split: the stream of messages
`["hi", "yo"]` followed by the incomplete segment `"pa"`, chunked with
boundaries in the middle of lines. -/
theorem framer_chunk_invariance_witness :
    (∀ m ∈ [['h','i'],['y','o']], '\n' ∉ m) ∧ ('\n' ∉ ['p','a']) ∧
      ([['h'],['i','\n','y'],['o','\n','p','a']].flatten =
        encodeMsgs [['h','i'],['y','o']] ++ ['p','a']) ∧
      processChunks [] [['h'],['i','\n','y'],['o','\n','p','a']] =
        ([['h','i'],['y','o']], ['p','a']) :=
  ⟨by decide, by decide, by decide,
    framer_chunk_invariance [['h','i'],['y','o']] _ ['p','a']
      (by decide) (by decide) (by decide)⟩

/-! ## Theorems: per-line relay (malformed-line tolerance, whitespace filter) -/

theorem jsTrim_eq_nil_of_whitespace (line : List Char)
    (h : ∀ c ∈ line, c.isWhitespace) : jsTrim line = [] := by
  have h1 : line.dropWhile Char.isWhitespace = [] :=
    List.dropWhile_eq_nil_iff.mpr h
  simp [jsTrim, h1]

theorem processLines_append {J : Type} (parse : List Char → Option J)
    (wsOpen : Bool) (a b : List (List Char)) :
    processLines parse wsOpen (a ++ b) =
      ⟨(processLines parse wsOpen a).sent ++ (processLines parse wsOpen b).sent,
        (processLines parse wsOpen a).errors + (processLines parse wsOpen b).errors⟩ := by
  induction a with
  | nil => simp [processLines]
  | cons l rest ih => simp [processLines, ih, Nat.add_assoc]

/-- C5 — Malformed line tolerance: for a worker output stream of one
unparseable line surrounded by two parseable `recognition_result` lines
(all three surviving the trim filter), the client receives exactly the two
parsed results, in original order, one decode error is logged for the
malformed line, and the later line is still processed (no abort). -/
theorem malformed_line_tolerance {J : Type} (parse : List Char → Option J)
    (l1 lb l2 : List Char) (r1 r2 : J)
    (h1 : parse l1 = some r1) (hb : parse lb = none) (h2 : parse l2 = some r2)
    (t1 : jsTrim l1 ≠ []) (tb : jsTrim lb ≠ []) (t2 : jsTrim l2 ≠ []) :
    processLines parse true [l1, lb, l2] = ⟨[r1, r2], 1⟩ := by
  simp [processLines, processLine, h1, hb, h2, t1, tb, t2]

/-- Witness for C5: the concrete stream `["g1", "x", "g2"]` under the
concrete parse function `demoParse`. -/
theorem malformed_line_tolerance_witness :
    demoParse ['g','1'] = some 1 ∧ demoParse ['x'] = none ∧
      demoParse ['g','2'] = some 2 ∧ jsTrim ['g','1'] ≠ [] ∧
      jsTrim ['x'] ≠ [] ∧ jsTrim ['g','2'] ≠ [] ∧
      processLines demoParse true [['g','1'], ['x'], ['g','2']] = ⟨[1, 2], 1⟩ :=
  ⟨by decide, by decide, by decide, by decide, by decide, by decide,
    malformed_line_tolerance demoParse ['g','1'] ['x'] ['g','2'] 1 2
      (by decide) (by decide) (by decide) (by decide) (by decide) (by decide)⟩

/-- C10 — Whitespace-only lines: the empty-line filter tests the trimmed
line, so a worker output line consisting solely of whitespace characters
forwards nothing, produces no decode error, and is silently skipped —
removing it from a stream does not change the relay's output at all. -/
theorem whitespace_line_silently_skipped {J : Type} (parse : List Char → Option J)
    (wsOpen : Bool) (line : List Char) (pre post : List (List Char))
    (h : ∀ c ∈ line, c.isWhitespace) :
    processLine parse wsOpen line = ⟨[], 0⟩ ∧
    processLines parse wsOpen (pre ++ line :: post) =
      processLines parse wsOpen (pre ++ post) := by
  have h0 : processLine parse wsOpen line = ⟨[], 0⟩ := by
    simp [processLine, jsTrim_eq_nil_of_whitespace line h]
  refine ⟨h0, ?_⟩
  rw [processLines_append parse wsOpen pre (line :: post),
    processLines_append parse wsOpen pre post]
  simp [processLines, h0]

/-- Witness for C10: a line of one space and one tab inside a stream of two
parseable lines; the relay output is as if the line were absent. -/
theorem whitespace_line_silently_skipped_witness :
    (∀ c ∈ [' ', '\t'], c.isWhitespace) ∧
      processLine demoParse true [' ', '\t'] = ⟨[], 0⟩ ∧
      processLines demoParse true [['g','1'], [' ', '\t'], ['g','2']] =
        processLines demoParse true [['g','1'], ['g','2']] :=
  ⟨by decide,
    (whitespace_line_silently_skipped demoParse true [' ', '\t']
      [['g','1']] [['g','2']] (by decide)).1,
    (whitespace_line_silently_skipped demoParse true [' ', '\t']
      [['g','1']] [['g','2']] (by decide)).2⟩

/-! ## Theorems: inbound client-message relay -/

theorem handleChatMessage_closedConn (a w : Bool) (n : Nat) (m : Option ClientMsg) :
    (handleChatMessage a w n m).closedConn = false := by
  cases m with
  | none => rfl
  | some cm => cases cm <;> cases a <;> simp [handleChatMessage]

theorem handleRecMessage_closedConn (a w : Bool) (n : Nat) (m : Option ClientMsg) :
    (handleRecMessage a w n m).closedConn = false := by
  cases m with
  | none => rfl
  | some cm => cases cm <;> cases a <;> simp [handleRecMessage]

theorem runChatInbound_closedConn (a w : Bool) (items : List (Nat × Option ClientMsg)) :
    (runChatInbound a w items).closedConn = false := by
  induction items with
  | nil => rfl
  | cons it rest ih =>
    simp [runChatInbound, ih, handleChatMessage_closedConn]

theorem runRecInbound_closedConn (a w : Bool) (items : List (Nat × Option ClientMsg)) :
    (runRecInbound a w items).closedConn = false := by
  induction items with
  | nil => rfl
  | cons it rest ih =>
    simp [runRecInbound, ih, handleRecMessage_closedConn]

theorem runChatInbound_toWorker (w : Bool) (items : List (Nat × Option ClientMsg)) :
    (runChatInbound true w items).toWorker =
      items.filterMap (fun it =>
        match it.2 with
        | some (ClientMsg.query q) => some (encodeQueryWire q it.1)
        | _ => none) := by
  induction items with
  | nil => rfl
  | cons it rest ih =>
    obtain ⟨ts, m⟩ := it
    cases m with
    | none => simpa [runChatInbound, handleChatMessage] using ih
    | some cm =>
      cases cm <;> simpa [runChatInbound, handleChatMessage] using ih

theorem runRecInbound_toWorker (w : Bool) (items : List (Nat × Option ClientMsg)) :
    (runRecInbound true w items).toWorker =
      items.filterMap (fun it =>
        match it.2 with
        | some (ClientMsg.frame img) => some (encodeFrameWire img it.1)
        | _ => none) := by
  induction items with
  | nil => rfl
  | cons it rest ih =>
    obtain ⟨ts, m⟩ := it
    cases m with
    | none => simpa [runRecInbound, handleRecMessage] using ih
    | some cm =>
      cases cm <;> simpa [runRecInbound, handleRecMessage] using ih

theorem toList_append_newline (a : String) :
    (a ++ "\n").toList = a.toList ++ ['\n'] := by
  simp [String.toList, String.data_append]

theorem encodeQueryWire_newline_terminated (q : String) (ts : Nat) :
    (encodeQueryWire q ts).getLast? = some '\n' := by
  rw [encodeQueryWire, toList_append_newline, List.getLast?_concat]

theorem encodeFrameWire_newline_terminated (img : String) (ts : Nat) :
    (encodeFrameWire img ts).getLast? = some '\n' := by
  rw [encodeFrameWire, toList_append_newline, List.getLast?_concat]

/-- C6 counterexample: a structurally valid client message whose `type`
does not match the session's kind is dropped, but nothing is logged (the
`if` is simply skipped and only the `catch` of `JSON.parse` logs), so the
claim that every message of unrecognized shape is logged is false. -/
theorem inbound_unrecognized_not_logged :
    (handleChatMessage true true 5 (some (ClientMsg.frame "x"))).toWorker = [] ∧
    ¬ (handleChatMessage true true 5 (some (ClientMsg.frame "x"))).logs > 0 ∧
    (handleRecMessage true true 5 (some (ClientMsg.query "hi"))).toWorker = [] ∧
    ¬ (handleRecMessage true true 5 (some (ClientMsg.query "hi"))).logs > 0 := by
  decide

/-- C6 amended — Inbound relay: every client message whose shape matches
the session's kind (`query` for chat, `frame` for recognition) is forwarded
to the worker's stdin as a newline-terminated JSON object carrying the
payload plus a server-attached timestamp, in the order received; messages
of unrecognized shape are dropped without closing the connection, but
silently — only messages on which `JSON.parse` throws are logged (and, on
the chat branch, answered with a format notice when the socket is open). -/
theorem inbound_relay_amended (alive w : Bool) (now : Nat) (q img tag : String)
    (items : List (Nat × Option ClientMsg)) :
    handleChatMessage true w now (some (ClientMsg.query q)) =
      ⟨[encodeQueryWire q now], 0, [], false⟩ ∧
    handleRecMessage true w now (some (ClientMsg.frame img)) =
      ⟨[encodeFrameWire img now], 0, [], false⟩ ∧
    (encodeQueryWire q now).getLast? = some '\n' ∧
    (encodeFrameWire img now).getLast? = some '\n' ∧
    (runChatInbound true w items).toWorker =
      items.filterMap (fun it =>
        match it.2 with
        | some (ClientMsg.query s) => some (encodeQueryWire s it.1)
        | _ => none) ∧
    (runRecInbound true w items).toWorker =
      items.filterMap (fun it =>
        match it.2 with
        | some (ClientMsg.frame s) => some (encodeFrameWire s it.1)
        | _ => none) ∧
    handleChatMessage alive w now (some (ClientMsg.frame img)) = ⟨[], 0, [], false⟩ ∧
    handleChatMessage alive w now (some (ClientMsg.other tag)) = ⟨[], 0, [], false⟩ ∧
    handleRecMessage alive w now (some (ClientMsg.query q)) = ⟨[], 0, [], false⟩ ∧
    handleRecMessage alive w now (some (ClientMsg.other tag)) = ⟨[], 0, [], false⟩ ∧
    handleChatMessage alive w now none =
      ⟨[], 1, if w then [invalidFormatNotice] else [], false⟩ ∧
    handleRecMessage alive w now none = ⟨[], 1, [], false⟩ ∧
    (runChatInbound alive w items).closedConn = false ∧
    (runRecInbound alive w items).closedConn = false := by
  refine ⟨rfl, rfl, encodeQueryWire_newline_terminated q now,
    encodeFrameWire_newline_terminated img now,
    runChatInbound_toWorker w items, runRecInbound_toWorker w items,
    rfl, rfl, rfl, rfl, rfl, rfl,
    runChatInbound_closedConn alive w items, runRecInbound_closedConn alive w items⟩

/-! ## Theorems: spawn failure -/

/-- C7 — Spawn failure handling: when the worker cannot be launched, the
`catch` path sends the client exactly one generic service-unavailable
`system` notification whose text is a fixed constant (independent of the
exception's diagnostic text `e`, so no internal diagnostics can leak),
registers nothing in the registry map, logs the error once, and returns
`null` so the session holds no worker. -/
theorem spawn_failure_handling (e : String) (cid : String)
    (procs : List (String × Nat)) :
    startChatProcessH (Except.error e) true cid procs =
      ⟨procs, [chatUnavailableNotice], none, 1⟩ ∧
    startRecognitionProcessH (Except.error e) true cid procs =
      ⟨procs, [recUnavailableNotice], none, 1⟩ ∧
    chatUnavailableNotice.mtype = "system" ∧
    recUnavailableNotice.mtype = "system" :=
  ⟨rfl, rfl, rfl, rfl⟩

/-! ## Theorems: kind classification -/

/-- C9 — Kind classification: the session kind is a function of the
connection's requested target alone; the target `/chat` is classified as a
chat session and every other target value falls through to the recognition
default, so no target is rejected — connecting with an unrecognized target
creates an open recognition session. -/
theorem kind_classification (url : String) (h : url ≠ "/chat") :
    classifyKind url = Kind.recog ∧
    classifyKind "/chat" = Kind.chat ∧
    ∀ s : SupState, (handleConnect url s).conns.get? s.conns.length =
      some { wsIdx := s.conns.length, clientId := clientIdOf s.now,
             kind := Kind.recog, isOpen := true } := by
  have hc : isChatWs url = false := by simp [isChatWs, h]
  refine ⟨by simp [classifyKind, hc], by simp [classifyKind, isChatWs], ?_⟩
  intro s
  simp only [handleConnect, classifyKind, hc, Bool.false_eq_true, if_false]
  exact List.get?_concat_length s.conns _

/-- Witness for C9 at the recognition target `/ws` used by the frontend. -/
theorem kind_classification_witness :
    ("/ws" ≠ "/chat") ∧ classifyKind "/ws" = Kind.recog ∧
      (handleConnect "/ws" initState).conns.get? initState.conns.length =
        some { wsIdx := initState.conns.length, clientId := clientIdOf initState.now,
               kind := Kind.recog, isOpen := true } :=
  ⟨by decide, (kind_classification "/ws" (by decide)).1,
    (kind_classification "/ws" (by decide)).2.2 initState⟩

/-! ## Theorems: registry map operations -/

theorem mlookup_mset_self (m : List (String × Nat)) (k : String) (v : Nat) :
    mlookup (mset m k v) k = some v := by
  induction m with
  | nil => simp [mset, mlookup]
  | cons e rest ih =>
    by_cases h : e.1 = k
    · simp [mset, h, mlookup]
    · simp [mset, h, mlookup, ih]

theorem mlookup_mset_ne (m : List (String × Nat)) (k : String) (v : Nat)
    (k' : String) (h : k' ≠ k) : mlookup (mset m k v) k' = mlookup m k' := by
  induction m with
  | nil => simp [mset, mlookup, Ne.symm h]
  | cons e rest ih =>
    by_cases he : e.1 = k
    · have hk' : e.1 ≠ k' := he ▸ Ne.symm h
      simp [mset, he, mlookup, hk', Ne.symm h]
    · simp [mset, he, mlookup, ih]

theorem mlookup_mdelete_ne (m : List (String × Nat)) (k k' : String)
    (h : k' ≠ k) : mlookup (mdelete m k) k' = mlookup m k' := by
  induction m with
  | nil => rfl
  | cons e rest ih =>
    by_cases he : e.1 = k
    · have hk' : e.1 ≠ k' := he ▸ Ne.symm h
      simp [mdelete, he, mlookup, hk', Ne.symm h]
    · simp [mdelete, he, mlookup, ih]

/-! ## Theorems: supervisor state machine -/

/-- C4 — Recognition non-restart: a spontaneous exit of a recognition
worker removes the session's entry from the registry and does nothing
else — no worker is spawned, no restart timer is scheduled, and no message
is sent to the client. -/
theorem recognition_non_restart (s : SupState) (i t : Nat) (c : Conn) (pid : Nat)
    (hc : getConn s i = some c) (hk : c.kind = Kind.recog)
    (hp : mlookup s.recProcs c.clientId = some pid) (ht : s.now ≤ t) :
    (step s (Ev.procExit i t)).recProcs = mdelete s.recProcs c.clientId ∧
    (step s (Ev.procExit i t)).chatProcs = s.chatProcs ∧
    (step s (Ev.procExit i t)).spawned = s.spawned ∧
    (step s (Ev.procExit i t)).timers = s.timers ∧
    (step s (Ev.procExit i t)).msgs = s.msgs ∧
    (step s (Ev.procExit i t)).conns = s.conns := by
  have hc3 : s.conns[i]? = some c := by
    rw [← List.get?_eq_getElem?]
    exact hc
  have hv : valid s (Ev.procExit i t) = true := by
    simp [valid, getConn, hc3, hk, mhas, hp, ht]
  have key : step s (Ev.procExit i t) =
      { s with now := t, exited := s.exited ++ [pid],
               recProcs := mdelete s.recProcs c.clientId } := by
    simp [step, hv, handleProcExit, getConn, hc3, hk, hp]
  refine ⟨?_, ?_, ?_, ?_, ?_, ?_⟩ <;> rw [key]

/-- Witness for C4: a recognition session accepted at time 5 whose worker
exits spontaneously at time 6. -/
theorem recognition_non_restart_witness :
    getConn recogState 0 = some recogConn ∧ recogConn.kind = Kind.recog ∧
      mlookup recogState.recProcs recogConn.clientId = some 0 ∧
      recogState.now ≤ 6 ∧
      (step recogState (Ev.procExit 0 6)).recProcs =
        mdelete recogState.recProcs recogConn.clientId ∧
      (step recogState (Ev.procExit 0 6)).spawned = recogState.spawned ∧
      (step recogState (Ev.procExit 0 6)).msgs = recogState.msgs :=
  ⟨by decide, by decide, by decide, by decide,
    (recognition_non_restart recogState 0 6 recogConn 0
      (by decide) (by decide) (by decide) (by decide)).1,
    (recognition_non_restart recogState 0 6 recogConn 0
      (by decide) (by decide) (by decide) (by decide)).2.2.1,
    (recognition_non_restart recogState 0 6 recogConn 0
      (by decide) (by decide) (by decide) (by decide)).2.2.2.2.1⟩

/-- C3 — Chat restart cadence: when a chat worker exits spontaneously
while the socket is open, the client is sent the `system` restart notice,
no replacement is spawned at exit time, a restart timer bound to the same
client id is scheduled to fire no sooner than one time unit later, all
other registry entries are untouched, and whenever any restart timer
fires (which validity permits only at or after its backoff instant) the
replacement worker is registered under the same client id, leaving every
other registry entry unchanged. -/
theorem chat_restart_cadence (s : SupState) (i t : Nat) (c : Conn) (pid : Nat)
    (hc : getConn s i = some c) (hk : c.kind = Kind.chat)
    (hopen : c.isOpen = true)
    (hp : mlookup s.chatProcs c.clientId = some pid) (ht : s.now ≤ t) :
    (step s (Ev.procExit i t)).msgs = s.msgs ++ [(c.clientId, restartNotice)] ∧
    restartNotice.mtype = "system" ∧
    (step s (Ev.procExit i t)).timers = s.timers ++
      [({ clientId := c.clientId, wsIdx := c.wsIdx, scheduledAt := t,
          fireAt := t + 1 } : RestartTimer)] ∧
    (step s (Ev.procExit i t)).spawned = s.spawned ∧
    (∀ cid', cid' ≠ c.clientId →
      mlookup (step s (Ev.procExit i t)).chatProcs cid' =
        mlookup s.chatProcs cid') ∧
    (∀ (s2 : SupState) (j t2 : Nat) (tm : RestartTimer),
      s2.timers.get? j = some tm → valid s2 (Ev.timerFire j t2) = true →
        tm.fireAt ≤ t2 ∧
        mlookup (step s2 (Ev.timerFire j t2)).chatProcs tm.clientId =
          some s2.nextPid ∧
        ∀ cid', cid' ≠ tm.clientId →
          mlookup (step s2 (Ev.timerFire j t2)).chatProcs cid' =
            mlookup s2.chatProcs cid') := by
  have hc3 : s.conns[i]? = some c := by
    rw [← List.get?_eq_getElem?]
    exact hc
  have hv : valid s (Ev.procExit i t) = true := by
    simp [valid, getConn, hc3, hk, mhas, hp, ht]
  have key : step s (Ev.procExit i t) =
      { s with now := t, exited := s.exited ++ [pid],
               chatProcs := mdelete s.chatProcs c.clientId,
               msgs := s.msgs ++ [(c.clientId, restartNotice)],
               timers := s.timers ++
                 [({ clientId := c.clientId, wsIdx := c.wsIdx, scheduledAt := t,
                     fireAt := t + 1 } : RestartTimer)] } := by
    simp [step, hv, handleProcExit, getConn, hc3, hk, hp, hopen]
  refine ⟨by rw [key], rfl, by rw [key], by rw [key], ?_, ?_⟩
  · intro cid' hne
    rw [key]
    exact mlookup_mdelete_ne s.chatProcs c.clientId cid' hne
  · intro s2 j t2 tm hj hvB
    have hv2 := hvB
    simp only [valid, hj, Bool.and_eq_true, decide_eq_true_eq] at hv2
    have hj3 : s2.timers[j]? = some tm := by
      rw [← List.get?_eq_getElem?]
      exact hj
    have key2 : step s2 (Ev.timerFire j t2) =
        startChatProcessM tm.clientId
          { s2 with now := t2, timers := s2.timers.eraseIdx j } := by
      simp [step, hvB, handleTimerFire, hj3]
    refine ⟨hv2.2, ?_, ?_⟩
    · rw [key2]
      exact mlookup_mset_self s2.chatProcs tm.clientId s2.nextPid
    · intro cid' hne
      rw [key2]
      exact mlookup_mset_ne s2.chatProcs tm.clientId s2.nextPid cid' hne

/-- Witness for C3: the chat session accepted at time 5, exit at time 6,
timer fired at time 7. -/
theorem chat_restart_cadence_witness :
    getConn cadenceState 0 = some cadenceConn ∧
      cadenceConn.kind = Kind.chat ∧ cadenceConn.isOpen = true ∧
      mlookup cadenceState.chatProcs cadenceConn.clientId = some 0 ∧
      cadenceState.now ≤ 6 ∧
      (step cadenceState (Ev.procExit 0 6)).msgs =
        cadenceState.msgs ++ [(cadenceConn.clientId, restartNotice)] ∧
      (step cadenceState (Ev.procExit 0 6)).timers =
        cadenceState.timers ++ [cadenceTimer] ∧
      cadenceExited.timers.get? 0 = some cadenceTimer ∧
      valid cadenceExited (Ev.timerFire 0 7) = true ∧
      cadenceTimer.fireAt ≤ 7 ∧
      mlookup (step cadenceExited (Ev.timerFire 0 7)).chatProcs
        cadenceTimer.clientId = some cadenceExited.nextPid :=
  ⟨by decide, by decide, by decide, by decide, by decide,
    (chat_restart_cadence cadenceState 0 6 cadenceConn 0
      (by decide) (by decide) (by decide) (by decide) (by decide)).1,
    (chat_restart_cadence cadenceState 0 6 cadenceConn 0
      (by decide) (by decide) (by decide) (by decide) (by decide)).2.2.1,
    by decide, by decide,
    ((chat_restart_cadence cadenceState 0 6 cadenceConn 0
      (by decide) (by decide) (by decide) (by decide) (by decide)).2.2.2.2.2
        cadenceExited 0 7 cadenceTimer (by decide) (by decide)).1,
    ((chat_restart_cadence cadenceState 0 6 cadenceConn 0
      (by decide) (by decide) (by decide) (by decide) (by decide)).2.2.2.2.2
        cadenceExited 0 7 cadenceTimer (by decide) (by decide)).2.1⟩

/-- C1 — No-leak on disconnect fails on the code: in the valid trace where
a chat worker exits spontaneously (time 6), the client disconnects during
the restart backoff (time 6), and the pending timer then fires (time 7),
the `setTimeout` callback re-runs `startChatProcess` without re-checking
the socket, re-registering a fresh worker (pid 1) for the closed
connection: after all connections are closed the registry is nonempty and
that worker is alive (never exited) and never receives a termination
request. -/
theorem chat_backoff_leak :
    allValid initState leakTrace = true ∧
    allConnsClosed (run initState leakTrace) = true ∧
    registryEmpty (run initState leakTrace) = false ∧
    (run initState leakTrace).chatProcs = [(clientIdOf 5, 1)] ∧
    1 ∈ (run initState leakTrace).spawned ∧
    1 ∉ (run initState leakTrace).killed ∧
    1 ∉ (run initState leakTrace).exited := by
  decide

/-! ## Theorems: client-id assignment -/

theorem digitChar_injOn :
    ∀ a, a < 10 → ∀ b, b < 10 → Nat.digitChar a = Nat.digitChar b → a = b := by
  decide

theorem toDigitsCore_eq (n : Nat) : ∀ (fuel : Nat) (ds : List Char), n < fuel →
    Nat.toDigitsCore 10 fuel n ds =
      (if n = 0 then ['0']
       else ((Nat.digits 10 n).map Nat.digitChar).reverse) ++ ds := by
  induction n using Nat.strong_induction_on with
  | _ n ih =>
    intro fuel ds hfuel
    match fuel with
    | 0 => exact absurd hfuel (Nat.not_lt_zero n)
    | f + 1 =>
      by_cases h0 : n / 10 = 0
      · by_cases hn : n = 0
        · subst hn
          simp only [Nat.toDigitsCore, if_pos rfl]
          simp [show Nat.digitChar (0 % 10) = '0' from by decide]
        · have h10 : n < 10 := (Nat.div_eq_zero_iff (by norm_num)).mp h0
          have hd : Nat.digits 10 n = [n] := Nat.digits_of_lt 10 n hn h10
          simp [Nat.toDigitsCore, h0, hn, hd, Nat.mod_eq_of_lt h10]
      · have hn : n ≠ 0 := fun h => h0 (by simp [h])
        have hlt : n / 10 < n := Nat.div_lt_self (Nat.pos_of_ne_zero hn) (by norm_num)
        have hfu : n / 10 < f := lt_of_lt_of_le hlt (Nat.lt_succ_iff.mp hfuel)
        have hrec := ih (n / 10) hlt f (Nat.digitChar (n % 10) :: ds) hfu
        have hd : Nat.digits 10 n = n % 10 :: Nat.digits 10 (n / 10) :=
          Nat.digits_def' (by norm_num) (Nat.pos_of_ne_zero hn)
        simp only [Nat.toDigitsCore, h0, if_neg h0, if_neg hn, hrec, hd,
          List.map_cons, List.reverse_cons]
        simp [h0]

theorem natRepr_eq (n : Nat) :
    Nat.repr n =
      (if n = 0 then ['0']
       else ((Nat.digits 10 n).map Nat.digitChar).reverse).asString := by
  show (Nat.toDigits 10 n).asString = _
  rw [Nat.toDigits, toDigitsCore_eq n (n + 1) [] (Nat.lt_succ_self n),
    List.append_nil]

theorem map_digitChar_inj (l1 : List Nat) : ∀ (l2 : List Nat),
    (∀ x ∈ l1, x < 10) → (∀ x ∈ l2, x < 10) →
    l1.map Nat.digitChar = l2.map Nat.digitChar → l1 = l2 := by
  induction l1 with
  | nil =>
    intro l2 _ _ h
    cases l2 with
    | nil => rfl
    | cons b l2' => simp at h
  | cons a l ih =>
    intro l2 h1 h2 h
    cases l2 with
    | nil => simp at h
    | cons b l2' =>
      simp only [List.map_cons, List.cons.injEq] at h
      have ha : a = b :=
        digitChar_injOn a (h1 a (List.mem_cons_self a l)) b
          (h2 b (List.mem_cons_self b l2')) h.1
      have hl : l = l2' :=
        ih l2' (fun x hx => h1 x (List.mem_cons_of_mem a hx))
          (fun x hx => h2 x (List.mem_cons_of_mem b hx)) h.2
      rw [ha, hl]

theorem digits_map_reverse_ne_zero_singleton (b : Nat) (hb : b ≠ 0) :
    ((Nat.digits 10 b).map Nat.digitChar).reverse ≠ ['0'] := by
  intro hrev
  have hmap : (Nat.digits 10 b).map Nat.digitChar = ['0'] := by
    have h := congrArg List.reverse hrev
    simpa using h
  cases hd : Nat.digits 10 b with
  | nil => rw [hd] at hmap; simp at hmap
  | cons d rest =>
    rw [hd] at hmap
    cases rest with
    | cons d2 rest2 => simp at hmap
    | nil =>
      simp only [List.map_cons, List.map_nil, List.cons.injEq, and_true] at hmap
      have hdlt : d < 10 :=
        Nat.digits_lt_base (by norm_num) (by rw [hd]; exact List.mem_cons_self d [])
      have hd0 : d = 0 :=
        digitChar_injOn d hdlt 0 (by norm_num) (by rw [hmap]; rfl)
      have hb' : b = d := by
        have h := (Nat.ofDigits_digits 10 b).symm
        rw [hd] at h
        simpa [Nat.ofDigits_singleton] using h
      exact hb (hb'.trans hd0)

theorem natRepr_injective (a b : Nat) (h : Nat.repr a = Nat.repr b) : a = b := by
  rw [natRepr_eq, natRepr_eq] at h
  have h' := List.asString_inj.mp h
  by_cases ha : a = 0 <;> by_cases hb : b = 0
  · rw [ha, hb]
  · exfalso
    rw [if_pos ha, if_neg hb] at h'
    exact digits_map_reverse_ne_zero_singleton b hb h'.symm
  · exfalso
    rw [if_neg ha, if_pos hb] at h'
    exact digits_map_reverse_ne_zero_singleton a ha h'
  · rw [if_neg ha, if_neg hb] at h'
    have hmap := List.reverse_injective h'
    have hdig := map_digitChar_inj (Nat.digits 10 a) (Nat.digits 10 b)
      (fun x hx => Nat.digits_lt_base (by norm_num) hx)
      (fun x hx => Nat.digits_lt_base (by norm_num) hx) hmap
    calc a = Nat.ofDigits 10 (Nat.digits 10 a) := (Nat.ofDigits_digits 10 a).symm
    _ = Nat.ofDigits 10 (Nat.digits 10 b) := by rw [hdig]
    _ = b := Nat.ofDigits_digits 10 b

/-- C8 counterexample: the id is `Date.now().toString()`, so two
connections accepted within the same millisecond receive the same id: the
trace accepting two chat connections at time 7 is valid, creates two
distinct sessions carrying the same `clientId`, and leaves a single
registry entry shared by both (the second `set` overwrote the first), so
ids of concurrently accepted connections are not distinct. -/
theorem clientid_collision :
    allValid initState collideTrace = true ∧
    (run initState collideTrace).conns.length = 2 ∧
    ((run initState collideTrace).conns.get? 0).map Conn.clientId =
      ((run initState collideTrace).conns.get? 1).map Conn.clientId ∧
    (run initState collideTrace).chatProcs.length = 1 := by
  decide

/-- C8 amended — Session id assignment: the id assigned at acceptance time
is the decimal rendering of the acceptance-time millisecond clock, so two
sessions accepted at distinct clock readings receive distinct ids (and an
id can only recur — be shared concurrently or reused after destruction —
when the millisecond clock reading itself recurs). -/
theorem clientid_distinct_times (t1 t2 : Nat) (h : t1 ≠ t2) :
    clientIdOf t1 ≠ clientIdOf t2 :=
  fun hc => h (natRepr_injective t1 t2 hc)

/-- Witness for the amended C8 at the concrete times 5 and 6. -/
theorem clientid_distinct_times_witness :
    (5 : Nat) ≠ 6 ∧ clientIdOf 5 ≠ clientIdOf 6 :=
  ⟨by decide, clientid_distinct_times 5 6 (by decide)⟩
